import Mathlib

/-
Verification of the golog structured JSON logger.

This file gives a shallow embedding of the logger's core:
  - the string/number primitives (fastQuote, fastFormatInt, fastFormatUint),
  - key normalization (normalizeKey, normalizeKeyInline) and map merging
    (mergeMaps),
  - the fast value encoder (encodeValue / encodeMap / encodeSliceAny),
  - the full-entry writer (JSONLogWriter.WriteLogEntry / writeFields),
  - the direct logger pipeline (JSONLogger.log) and its options,
  - the package-level helper functions over the global logger slot,
  - the reflective fallback marshaller's struct case (marshalValue).

Go byte buffers are modelled as the strings they accumulate: each embedded
function returns the bytes it appends.  Go maps are modelled as association
lists whose order stands for one possible iteration order of the Go map
(Go's map iteration order is unspecified, so any list order is a legal
execution).  Machine integers are modelled as Int with explicit two's
complement wrapping where the Go code can overflow.  Opaque runtime values
(channels, functions, ...) are modelled by a constructor carrying the
string that Go's fmt "%v" verb would print for them.
-/

namespace Golog

/-! ### Character classes and small string helpers -/

/-- The characters Go's `unicode.IsSpace` accepts (so exactly what
`strings.TrimSpace` trims): ASCII whitespace, NEL, NBSP and the
Unicode space code points. -/
def isGoSpace (c : Char) : Bool :=
  c = ' ' || c = '\t' || c = '\n' || c = '\x0b' || c = '\x0c' || c = '\r' ||
  c = '\x85' || c = '\xa0' ||
  c = '\u1680' || ('\u2000' ≤ c && c ≤ '\u200a') ||
  c = '\u2028' || c = '\u2029' || c = '\u202f' || c = '\u205f' || c = '\u3000'

/-- A single or double quote character (the cutset of `strings.Trim(nk, "\"'")`). -/
def isQuoteChar (c : Char) : Bool :=
  c = '\x22' || c = '\x27'

/-- Drop trailing characters satisfying `p` (helper for the trimming functions). -/
def dropTrailing (p : Char → Bool) (cs : List Char) : List Char :=
  (cs.reverse.dropWhile p).reverse

/-- Go `strings.TrimSpace` on a character list. -/
def goTrimSpaceL (cs : List Char) : List Char :=
  dropTrailing isGoSpace (cs.dropWhile isGoSpace)

/-- Go `strings.TrimSpace`. -/
def goTrimSpace (s : String) : String :=
  String.mk (goTrimSpaceL s.data)

/-- Go `strings.TrimSuffix(s, ":")`: remove one trailing colon if present. -/
def goTrimSuffixColonL (cs : List Char) : List Char :=
  if cs.getLast? = some ':' then cs.dropLast else cs

/-- Go `strings.Trim(s, "\"'")`: remove every leading and trailing quote char. -/
def goTrimQuotesL (cs : List Char) : List Char :=
  dropTrailing isQuoteChar (cs.dropWhile isQuoteChar)

/-! ### fastQuote (coder.go / part_001) -/

/-- The lowercase hex digit table used by `fastQuote` for control bytes. -/
def hexDigit (n : Nat) : Char :=
  (("0123456789abcdef").data).getD n '0'

/-- One character of `fastQuote`'s loop body: the common escapes, a
`\u00XX` sequence for other control bytes, everything else verbatim. -/
def fastQuoteChar (c : Char) : List Char :=
  if c = '\\' then ['\\', '\\']
  else if c = '\x22' then ['\\', '\x22']
  else if c = '\n' then ['\\', 'n']
  else if c = '\r' then ['\\', 'r']
  else if c = '\t' then ['\\', 't']
  else if c.toNat < 0x20 then
    ['\\', 'u', '0', '0', hexDigit (c.toNat / 16), hexDigit (c.toNat % 16)]
  else [c]

/-- `fastQuote` from coder.go: a double-quoted JSON string with the common
escapes handled and control bytes written as `\u00XX`. -/
def fastQuote (s : String) : String :=
  String.mk ('\x22' :: (s.data.flatMap fastQuoteChar) ++ ['\x22'])

/-! ### fastFormatInt / fastFormatUint (part_001) -/

/-- The source's `for v > 0` division loop, producing the decimal digits
of `n` most significant first.  The first argument is a structural bound
on the loop's iteration count so that the definition reduces; the loop
runs at most one step per unit of `n`, so `n` itself is always enough. -/
def decDigitsAux : Nat → Nat → List Char
  | _, 0 => []
  | 0, _ + 1 => []
  | fuel + 1, n + 1 => decDigitsAux fuel ((n + 1) / 10) ++ [Char.ofNat (48 + (n + 1) % 10)]

/-- Decimal digits of `n` (empty when the loop would not run). -/
def decDigits (n : Nat) : List Char :=
  decDigitsAux n n

/-- Two's complement wrapping of an unbounded integer into int64, making the
overflow of Go's `integerValue = -integerValue` explicit. -/
def wrapInt64 (n : Int) : Int :=
  ((n + 2 ^ 63) % 2 ^ 64) - 2 ^ 63

/-- `fastFormatInt` from part_001.  The argument is the int64 value; the Go
negation `integerValue = -integerValue` is the wrapping negation, and the
digit loop runs only while the (possibly still negative) value is positive. -/
def fastFormatInt (n : Int) : String :=
  if n = 0 then "0"
  else
    let isNeg := n < 0
    let m := if isNeg then wrapInt64 (-n) else n
    let digits := decDigits m.toNat
    String.mk (if isNeg then '-' :: digits else digits)

/-- `fastFormatUint` from part_001 (argument is the uint64 value). -/
def fastFormatUint (u : Nat) : String :=
  if u = 0 then "0" else String.mk (decDigits u)

/-! ### normalizeKey (part_000) and the merge normalization (parser.go) -/

/-- `normalizeKey` from part_000: trim space, strip one trailing colon,
strip all surrounding quotes, trim space again. -/
def normalizeKey (k : String) : String :=
  String.mk (goTrimSpaceL (goTrimQuotesL (goTrimSuffixColonL (goTrimSpaceL k.data))))

/-- The suspect-character test of parser.go's `mergeMaps`:
`strings.ContainsAny(k, " \t\n\r:'\"")`. -/
def containsAnySuspect (k : String) : Bool :=
  k.data.any (fun c => c = ' ' || c = '\t' || c = '\n' || c = '\r' ||
    c = ':' || c = '\x27' || c = '\x22')

/-! ### The dynamic value model -/

/-- The fixed-width integer kinds a Go `any` value can carry.  The fast
encoder's top-level switch supports all of them, while `encodeMap`'s inline
switch only supports `int` and `int64`. -/
inductive NumKind where
  | i | i8 | i16 | i32 | i64 | u | u8 | u16 | u32 | u64
deriving DecidableEq

/-- A Go `any` value as seen by the encoders.  `vTime` carries the two
renderings the code can need: its UTC RFC3339Nano formatting (used by the
encoders) and its fmt "%v" string.  `vOther` is any runtime shape outside
the fast set (channel, function, struct, ...) carrying its fmt "%v" string.
The float32/float64 cases of the source are not embedded (no claim touches
them, and floating point does not translate to this embedding). -/
inductive Value where
  | vNull
  | vStr (s : String)
  | vBool (b : Bool)
  | vNum (kind : NumKind) (n : Int)
  | vTime (utcRFC3339Nano : String) (goString : String)
  | vMap (entries : List (String × Value))
  | vArr (elems : List Value)
  | vOther (goString : String)

/-- A Go `map[string]any` under one fixed iteration order. -/
abbrev GoMap := List (String × Value)

/-! ### The fast encoder (part_001): encodeValue / encodeMap / encodeSliceAny.

Each function returns the bytes it appended to the buffer together with the
source's boolean result; on failure the returned bytes are the partial
output the Go code left in the buffer. -/

mutual

/-- `encodeValue` from part_001: the top-level type switch of the fast
encoder.  The `encodeMap`/`encodeSliceAny` bodies (brace or bracket,
entry loop, closing delimiter only on success) are written inline in the
container cases so that the recursion is structural; `encodeMap` and
`encodeSliceAny` below are the named forms. -/
def encodeValue : Value → String × Bool
  | .vNull => ("null", true)
  | .vStr s => (fastQuote s, true)
  | .vBool b => (if b then "true" else "false", true)
  | .vNum kind n =>
    match kind with
    | .i | .i8 | .i16 | .i32 | .i64 => (fastFormatInt n, true)
    | .u | .u8 | .u16 | .u32 | .u64 => (fastFormatUint n.toNat, true)
  | .vTime ts _ => (String.mk ('\x22' :: ts.data ++ ['\x22']), true)
  | .vMap m =>
    (match encodeMapEntries true m with
     | (body, true) => ("\x7b" ++ body ++ "\x7d", true)
     | (body, false) => ("\x7b" ++ body, false))
  | .vArr s =>
    (match encodeSliceElems true s with
     | (body, true) => ("[" ++ body ++ "]", true)
     | (body, false) => ("[" ++ body, false))
  | .vOther _ => ("", false)

/-- The entry loop of `encodeMap`: comma separation via the isFirstField
flag, quoted key, then the inline value switch; stops at the first failing
entry with the bytes written so far. -/
def encodeMapEntries : Bool → List (String × Value) → String × Bool
  | _, [] => ("", true)
  | isFirstField, (k, v) :: rest =>
    let lead := (if isFirstField then "" else ",") ++ fastQuote k ++ ":"
    match encodeMapInlineValue v with
    | (out, true) =>
      match encodeMapEntries false rest with
      | (restOut, restOk) => (lead ++ out ++ restOut, restOk)
    | (out, false) => (lead ++ out, false)

/-- The inline scalar switch inside `encodeMap`'s loop: only nil, string,
bool, `int`, `int64`, time, nested map and nested slice are supported
(float64 is in the source but not embedded); every other kind, including
the remaining integer widths, signals failure with no value bytes. -/
def encodeMapInlineValue : Value → String × Bool
  | .vNull => ("null", true)
  | .vStr s => (fastQuote s, true)
  | .vBool b => (if b then "true" else "false", true)
  | .vNum .i n => (fastFormatInt n, true)
  | .vNum .i64 n => (fastFormatInt n, true)
  | .vTime ts _ => (String.mk ('\x22' :: ts.data ++ ['\x22']), true)
  | .vMap m =>
    (match encodeMapEntries true m with
     | (body, true) => ("\x7b" ++ body ++ "\x7d", true)
     | (body, false) => ("\x7b" ++ body, false))
  | .vArr s =>
    (match encodeSliceElems true s with
     | (body, true) => ("[" ++ body ++ "]", true)
     | (body, false) => ("[" ++ body, false))
  | _ => ("", false)

/-- The element loop of `encodeSliceAny` (comma before every element but
the first, recursion through `encodeValue`, stop at the first failure). -/
def encodeSliceElems : Bool → List Value → String × Bool
  | _, [] => ("", true)
  | isFirst, v :: rest =>
    let lead := if isFirst then "" else ","
    match encodeValue v with
    | (out, true) =>
      match encodeSliceElems false rest with
      | (restOut, restOk) => (lead ++ out ++ restOut, restOk)
    | (out, false) => (lead ++ out, false)

end

/-- `encodeMap` from part_001: writes `{`, the entries, and `}` only when
every entry encoded; on failure the partial bytes stay. -/
def encodeMap (m : List (String × Value)) : String × Bool :=
  match encodeMapEntries true m with
  | (body, true) => ("\x7b" ++ body ++ "\x7d", true)
  | (body, false) => ("\x7b" ++ body, false)

/-- `encodeSliceAny` from part_001: writes `[`, then the elements, closing
with `]` only when every element encoded. -/
def encodeSliceAny (s : List Value) : String × Bool :=
  match encodeSliceElems true s with
  | (body, true) => ("[" ++ body ++ "]", true)
  | (body, false) => ("[" ++ body, false)

/-! ### fmt "%v" (the writer's string fallback for unsupported values)

`writeFields` falls back to `fmt.Sprintf("%v", v)` when the fast encoder
rejects a value.  We model the verb for the embedded shapes: `<nil>` for
nil, raw text for strings, decimal for all integer kinds, the carried
"%v" string for times and opaque values, space-separated brackets for
slices, and `map[k:v ...]` with keys sorted (as fmt does) for maps. -/

/-- Insert a rendered map entry into a key-sorted list (fmt prints map
entries in sorted key order). -/
def insertByKey (p : String × String) : List (String × String) → List (String × String)
  | [] => [p]
  | q :: rest => if p.1 ≤ q.1 then p :: q :: rest else q :: insertByKey p rest

/-- Insertion sort of rendered map entries by key. -/
def sortByKey (l : List (String × String)) : List (String × String) :=
  l.foldr insertByKey []

/-- Space-separated concatenation, as fmt uses between container elements. -/
def joinSpaced : List String → String
  | [] => ""
  | [x] => x
  | x :: rest => x ++ " " ++ joinSpaced rest

mutual

/-- Go `fmt.Sprintf("%v", v)` for the embedded value shapes. -/
def goSprintf : Value → String
  | .vNull => "<nil>"
  | .vStr s => s
  | .vBool b => if b then "true" else "false"
  | .vNum _ n => toString n
  | .vTime _ g => g
  | .vMap m => "map[" ++ joinSpaced ((sortByKey (goSprintfEntries m)).map (fun p => p.1 ++ ":" ++ p.2)) ++ "]"
  | .vArr l => "[" ++ joinSpaced (goSprintfList l) ++ "]"
  | .vOther g => g

/-- "%v" renderings of a map's entries, keys untouched. -/
def goSprintfEntries : List (String × Value) → List (String × String)
  | [] => []
  | (k, v) :: rest => (k, goSprintf v) :: goSprintfEntries rest

/-- "%v" renderings of a slice's elements. -/
def goSprintfList : List Value → List String
  | [] => []
  | v :: rest => goSprintf v :: goSprintfList rest

end

/-! ### mergeMaps (parser.go) -/

/-- Association-list update with Go map semantics: `dst[k] = v`. -/
def insertKV : GoMap → String → Value → GoMap
  | [], k, v => [(k, v)]
  | (k0, v0) :: rest, k, v =>
    if k0 = k then (k, v) :: rest else (k0, v0) :: insertKV rest k v

/-- Association-list lookup: `dst[k]`. -/
def lookupKV : GoMap → String → Option Value
  | [], _ => none
  | (k0, v0) :: rest, k => if k0 = k then some v0 else lookupKV rest k

/-- The inline normalization of `mergeMaps` (the same four steps as
`normalizeKey`: trim space, strip one trailing colon, strip surrounding
quotes, trim space). -/
def mergeNormalizeKey (k : String) : String :=
  String.mk (goTrimSpaceL (goTrimQuotesL (goTrimSuffixColonL (goTrimSpaceL k.data))))

/-- One `dst[key] = value` step of `mergeMaps`: fast path when the key has
no suspect character, otherwise insert under the normalized key. -/
def mergeStep (dst : GoMap) (k : String) (v : Value) : GoMap :=
  if !containsAnySuspect k then insertKV dst k v
  else insertKV dst (mergeNormalizeKey k) v

/-- The inner loop of `mergeMaps` over one source map. -/
def mergeOne (dst : GoMap) (m : GoMap) : GoMap :=
  m.foldl (fun d p => mergeStep d p.1 p.2) dst

/-- `mergeMaps` from parser.go: sources in order, nil maps skipped. -/
def mergeMaps (dst : GoMap) (maps : List (Option GoMap)) : GoMap :=
  maps.foldl (fun d m? => match m? with | none => d | some m => mergeOne d m) dst

/-- The key under which `mergeMaps` stores an entry: the raw key on the
fast path, the normalized key otherwise. -/
def mergeEffKey (k : String) : String :=
  if containsAnySuspect k then mergeNormalizeKey k else k

/-! ### The full-entry writer (part_000): JSONLogWriter -/

/-- The single marshal-unsupported sentinel; its message is pinned by
writer_test.go's assertion on the emitted error field. -/
def errMarshalTypeUnsupported : String := "unsupported type for marshal"

/-- The key `writeFields` emits: normalized only when the cheap guard
fires (first byte a quote, or last byte a colon). -/
def writerKeyOf (k : String) : String :=
  match k.data with
  | [] => k
  | c :: rest =>
    if c = '\x22' || c = '\x27' || (c :: rest).getLastD ' ' = ':' then normalizeKey k
    else k

/-- The field loop of `JSONLogWriter.writeFields`: each entry contributes
a comma, its (possibly normalized) quoted key, a colon and its encoding;
on the first fast-encoder failure the partial value bytes stay, the
`fmt "%v"` fallback is appended quoted, and the loop returns the sentinel
without visiting the remaining entries. -/
def writeFieldsList : GoMap → String × Option String
  | [] => ("", none)
  | (k, v) :: rest =>
    let lead := "," ++ fastQuote (writerKeyOf k) ++ ":"
    match encodeValue v with
    | (out, true) =>
      match writeFieldsList rest with
      | (restOut, restErr) => (lead ++ out ++ restOut, restErr)
    | (out, false) => (lead ++ out ++ fastQuote (goSprintf v), some errMarshalTypeUnsupported)

/-- `JSONLogWriter.writeFields`: nil maps contribute nothing. -/
def writeFields : Option GoMap → String × Option String
  | none => ("", none)
  | some m => writeFieldsList m

/-- The fixed opening of a written entry: `{"timestamp":"<ts>"`,
`,"level":"<level>"`, `,"message":` and the quoted message. -/
def writeEntryHead (tsFormatted level message : String) : String :=
  "\x7b\x22timestamp\x22:\x22" ++ tsFormatted ++ "\x22,\x22level\x22:\x22" ++ level
    ++ "\x22,\x22message\x22:" ++ fastQuote message

/-- One `additionalFields` iteration of `WriteLogEntry`: append the map's
bytes; a non-nil error from `writeFields` replaces the error seen so far
(`encodingError = err`), a nil one leaves it. -/
def writeFieldsFold (acc : String × Option String) (m : Option GoMap) : String × Option String :=
  match writeFields m with
  | (out, some e) => (acc.1 ++ out, some e)
  | (out, none) => (acc.1 ++ out, acc.2)

/-- `JSONLogWriter.WriteLogEntry`.  `tsFormatted` stands for
`timestamp.UTC().Format(timeFormat)` (the formatted text the source
writes between the timestamp quotes).  Returns the bytes appended to the
buffer and the returned error. -/
def WriteLogEntry (tsFormatted level message : String) (baseFields : Option GoMap)
    (additionalFields : List (Option GoMap)) : String × Option String :=
  let (fieldsOut, encodingError) :=
    additionalFields.foldl writeFieldsFold (writeFields baseFields)
  let errOut := match encodingError with
    | some e => ",\x22error\x22:" ++ fastQuote e
    | none => ""
  (writeEntryHead tsFormatted level message ++ fieldsOut ++ errOut ++ "\x7d\n", encodingError)

/-! ### The direct logger pipeline (part_006): JSONLogger and its options -/

/-- Severity levels (`type Level int`, Debug=0, Info=1, Warn=2, Error=3). -/
abbrev Level := Nat

/-- DebugLevel from part_006. -/
def DebugLevel : Level := 0

/-- InfoLevel from part_006. -/
def InfoLevel : Level := 1

/-- WarnLevel from part_006. -/
def WarnLevel : Level := 2

/-- ErrorLevel from part_006. -/
def ErrorLevel : Level := 3

/-- The configuration-carrying fields of `JSONLogger`.  The output writer,
mutex and buffer pool are effect machinery: the sink is modelled by the
list of chunks `log` hands to it, and buffer traffic by a counter in
`LogEffect`. -/
structure JSONLogger where
  baseFields : GoMap
  level : Level
  timeFormat : String

/-- What one `log` call does to the world: how many pooled buffers it
acquired and the byte chunks it wrote to the output sink, in order. -/
structure LogEffect where
  buffersAcquired : Nat
  writes : List String

/-- `normalizeKeyInline` from part_006: keys of length at most 2 are
returned untouched; otherwise one leading quote, one trailing quote, one
trailing colon and then plain spaces are trimmed, sequentially. -/
def normalizeKeyInline (k : String) : String :=
  if k.data.length ≤ 2 then k
  else
    let s1 := if isQuoteChar (k.data.headD ' ') then k.data.tail else k.data
    let s2 := match s1.getLast? with
      | some c => if isQuoteChar c then s1.dropLast else s1
      | none => s1
    let s3 := match s2.getLast? with
      | some c => if c = ':' then s2.dropLast else s2
      | none => s2
    String.mk (dropTrailing (fun c => c = ' ') (s3.dropWhile (fun c => c = ' ')))

/-- The key part_006's additional-fields loop emits: `normalizeKeyInline`
only when the first byte is a quote or the last byte is a colon. -/
def logKeyOf (k : String) : String :=
  match k.data with
  | [] => k
  | c :: rest =>
    if c = '\x22' || c = '\x27' || (c :: rest).getLastD ' ' = ':' then normalizeKeyInline k
    else k

/-- One field value in part_006's `log`: the fast encoding, or (after any
partial bytes the failed encoder left) the quoted `<unsupported>` text. -/
def logFieldValueBytes (v : Value) : String :=
  match encodeValue v with
  | (out, true) => out
  | (out, false) => out ++ fastQuote "<unsupported>"

/-- The base-field loop of part_006's `log` (keys written raw, without any
normalization guard). -/
def logBaseFieldsBytes (m : GoMap) : String :=
  m.foldl (fun acc p => acc ++ "," ++ fastQuote p.1 ++ ":" ++ logFieldValueBytes p.2) ""

/-- The additional-fields loops of part_006's `log`: nil maps skipped,
keys passed through the normalization guard. -/
def logAddFieldsBytes (maps : List (Option GoMap)) : String :=
  maps.foldl
    (fun acc m? =>
      match m? with
      | none => acc
      | some m =>
        m.foldl (fun a p => a ++ "," ++ fastQuote (logKeyOf p.1) ++ ":" ++ logFieldValueBytes p.2) acc)
    ""

/-- `JSONLogger.log` from part_006.  `nowFormatted` stands for
`time.Now().UTC().Format(timeFormat)` (with the empty-format fallback to
RFC3339Nano absorbed into the parameter).  Calls below the configured
level return before acquiring a buffer or formatting anything; otherwise
exactly one buffer is acquired and one chunk is written to the sink. -/
def JSONLogger.log (jl : JSONLogger) (nowFormatted : String) (logLevel : Level)
    (levelString message : String) (keyValuePairs : List (Option GoMap)) : LogEffect :=
  if logLevel < jl.level then ⟨0, []⟩
  else
    let entry := "\x7b\x22timestamp\x22:\x22" ++ nowFormatted ++ "\x22,\x22level\x22:\x22"
      ++ levelString ++ "\x22,\x22message\x22:" ++ fastQuote message
      ++ logBaseFieldsBytes jl.baseFields
      ++ logAddFieldsBytes keyValuePairs
      ++ "\x7d" ++ "\n"
    ⟨1, [entry]⟩

/-- `JSONLogger.Debug` (logger.go): forwards at DebugLevel with "debug". -/
def JSONLogger.debug (jl : JSONLogger) (nowFormatted message : String)
    (keyValuePairs : List (Option GoMap)) : LogEffect :=
  jl.log nowFormatted DebugLevel "debug" message keyValuePairs

/-- `JSONLogger.Info` (logger.go): forwards at InfoLevel with "info". -/
def JSONLogger.info (jl : JSONLogger) (nowFormatted message : String)
    (keyValuePairs : List (Option GoMap)) : LogEffect :=
  jl.log nowFormatted InfoLevel "info" message keyValuePairs

/-- `JSONLogger.Warn` (logger.go): forwards at WarnLevel with "warn". -/
def JSONLogger.warn (jl : JSONLogger) (nowFormatted message : String)
    (keyValuePairs : List (Option GoMap)) : LogEffect :=
  jl.log nowFormatted WarnLevel "warn" message keyValuePairs

/-- `JSONLogger.Error` (logger.go): forwards at ErrorLevel with "error". -/
def JSONLogger.error (jl : JSONLogger) (nowFormatted message : String)
    (keyValuePairs : List (Option GoMap)) : LogEffect :=
  jl.log nowFormatted ErrorLevel "error" message keyValuePairs

/-- `WithLevel`: sets the minimum level. -/
def WithLevel (l : Level) : JSONLogger → JSONLogger :=
  fun jl => { jl with level := l }

/-- `WithBaseField`: adds one base field. -/
def WithBaseField (k : String) (v : Value) : JSONLogger → JSONLogger :=
  fun jl => { jl with baseFields := insertKV jl.baseFields k v }

/-- `WithBaseFields`: adds every provided field to the base fields. -/
def WithBaseFields (fields : GoMap) : JSONLogger → JSONLogger :=
  fun jl => { jl with baseFields := fields.foldl (fun d p => insertKV d p.1 p.2) jl.baseFields }

/-- `WithCustomTimeFormat`: sets the timestamp format, except that the
empty string is rejected and leaves the logger untouched. -/
def WithCustomTimeFormat (format : String) : JSONLogger → JSONLogger :=
  fun jl => if format = "" then jl else { jl with timeFormat := format }

/-! ### Package-level helpers over the global logger slot (logger.go) -/

/-- A call a package-level helper forwards to the installed logger. -/
structure ForwardedCall where
  method : String
  message : String
  fields : List (Option GoMap)

/-- Package-level `Info` over a global slot holding a logger of any
implementation `L`: with a nil slot it returns at once, forwarding
nothing; otherwise it forwards exactly one Info call. -/
def packageInfo {L : Type} (slot : Option L) (msg : String)
    (additionalFields : List (Option GoMap)) : List (L × ForwardedCall) :=
  match slot with
  | none => []
  | some l => [(l, ⟨"Info", msg, additionalFields⟩)]

/-- Package-level `Warn` (same shape as `packageInfo`). -/
def packageWarn {L : Type} (slot : Option L) (msg : String)
    (additionalFields : List (Option GoMap)) : List (L × ForwardedCall) :=
  match slot with
  | none => []
  | some l => [(l, ⟨"Warn", msg, additionalFields⟩)]

/-- Package-level `Error` (same shape as `packageInfo`). -/
def packageError {L : Type} (slot : Option L) (msg : String)
    (additionalFields : List (Option GoMap)) : List (L × ForwardedCall) :=
  match slot with
  | none => []
  | some l => [(l, ⟨"Error", msg, additionalFields⟩)]

/-- Package-level `Debug` (same shape as `packageInfo`). -/
def packageDebug {L : Type} (slot : Option L) (msg : String)
    (additionalFields : List (Option GoMap)) : List (L × ForwardedCall) :=
  match slot with
  | none => []
  | some l => [(l, ⟨"Debug", msg, additionalFields⟩)]

/-! ### The reflective fallback marshaller (coder.go): marshalValue

The embedding follows the tag-honoring `marshalValue` of coder.go
(lines 141-251).  A reflected value is a tree: wrapper layers
(pointer/interface), scalars, the `time.Time` special case, string-keyed
maps, slices/arrays and structs whose fields carry their reflect data
(name, exported flag, raw `json` tag value, field value).  Channels,
functions, complex numbers and unsafe pointers are the terminal
unsupported kinds; maps with non-string keys error at the same point with
the same sentinel and no bytes, so they are covered by the same
constructor.  Float kinds are not embedded (see `Value`). -/

/-- A value as `reflect.ValueOf` presents it to `marshalValue`. -/
inductive RValue where
  | rInvalid
  | rNilRef
  | rRef (v : RValue)
  | rString (s : String)
  | rBool (b : Bool)
  | rInt (n : Int)
  | rUint (u : Nat)
  | rTime (utcRFC3339Nano : String)
  | rMapS (entries : List (String × RValue))
  | rSlice (elems : List RValue)
  | rStruct (fields : List (String × Bool × String × RValue))
  | rUnsupported

/-- One reflected struct field: Go name, exported flag (`PkgPath == ""`),
the raw `json` tag value ("" when absent), and the field's value. -/
abbrev RField := String × Bool × String × RValue

/-- Go `strconv.Quote` on one character, for the ASCII range the logger
exercises: quote and backslash escaped, printable ASCII verbatim, the
named control escapes, other control bytes as `\xhh`; non-ASCII printable
runes pass through (non-printable non-ASCII runes, which strconv would
escape as `\u`, are not embedded). -/
def goStrconvQuoteChar (c : Char) : List Char :=
  if c = '\x22' then ['\\', '\x22']
  else if c = '\\' then ['\\', '\\']
  else if 0x20 ≤ c.toNat && c.toNat < 0x7f then [c]
  else if c = '\x07' then ['\\', 'a']
  else if c = '\x08' then ['\\', 'b']
  else if c = '\x0c' then ['\\', 'f']
  else if c = '\n' then ['\\', 'n']
  else if c = '\r' then ['\\', 'r']
  else if c = '\t' then ['\\', 't']
  else if c = '\x0b' then ['\\', 'v']
  else if c.toNat < 0x80 then ['\\', 'x', hexDigit (c.toNat / 16), hexDigit (c.toNat % 16)]
  else [c]

/-- Go `strconv.Quote` (ASCII-faithful, see `goStrconvQuoteChar`). -/
def goStrconvQuote (s : String) : String :=
  String.mk ('\x22' :: (s.data.flatMap goStrconvQuoteChar) ++ ['\x22'])

/-- The effective output key of a tagged struct field: the tag segment
before the first comma (`indexComma`), or the whole tag without one. -/
def tagKeySegment (tag : String) : String :=
  String.mk (tag.data.takeWhile (fun c => c ≠ ','))

mutual

/-- `marshalValue` from coder.go: bytes appended and the returned error
(the single `errUnsupported` sentinel).  Composite cases leave their
partial bytes in place when a nested value errors. -/
def marshalValue : RValue → String × Option String
  | .rInvalid => ("null", none)
  | .rNilRef => ("null", none)
  | .rRef v => marshalValue v
  | .rString s => (fastQuote s, none)
  | .rBool b => (if b then "true" else "false", none)
  | .rInt n => (toString n, none)
  | .rUint u => (toString u, none)
  | .rTime utc => (goStrconvQuote utc, none)
  | .rMapS entries =>
    (match marshalMapEntries true entries with
     | (body, none) => ("\x7b" ++ body ++ "\x7d", none)
     | (body, some e) => ("\x7b" ++ body, some e))
  | .rSlice elems =>
    (match marshalSliceElems true elems with
     | (body, none) => ("[" ++ body ++ "]", none)
     | (body, some e) => ("[" ++ body, some e))
  | .rStruct fields =>
    (match marshalStructFields true fields with
     | (body, none) => ("\x7b" ++ body ++ "\x7d", none)
     | (body, some e) => ("\x7b" ++ body, some e))
  | .rUnsupported => ("", some errMarshalTypeUnsupported)

/-- The map loop of `marshalValue` (comma from the second entry on, keys
via `strconv.Quote`, recursion per value, stop at the first error). -/
def marshalMapEntries : Bool → List (String × RValue) → String × Option String
  | _, [] => ("", none)
  | isFirst, (k, v) :: rest =>
    let lead := (if isFirst then "" else ",") ++ goStrconvQuote k ++ ":"
    match marshalValue v with
    | (out, some e) => (lead ++ out, some e)
    | (out, none) =>
      match marshalMapEntries false rest with
      | (restOut, err) => (lead ++ out ++ restOut, err)

/-- The slice/array loop of `marshalValue`. -/
def marshalSliceElems : Bool → List RValue → String × Option String
  | _, [] => ("", none)
  | isFirst, v :: rest =>
    let lead := if isFirst then "" else ","
    match marshalValue v with
    | (out, some e) => (lead ++ out, some e)
    | (out, none) =>
      match marshalSliceElems false rest with
      | (restOut, err) => (lead ++ out ++ restOut, err)

/-- The struct-field loop of `marshalValue` (coder.go lines 218-245),
mirroring the source's control flow exactly: unexported fields are
skipped with `first` untouched; for an exported field the separating
comma is written (and `first` cleared) before the tag is consulted, so a
`json:"-"` skip happens after the comma is already out. -/
def marshalStructFields : Bool → List RField → String × Option String
  | _, [] => ("", none)
  | first, (fname, exported, tag, v) :: rest =>
    if exported = false then marshalStructFields first rest
    else
      let lead := if first then "" else ","
      if tag ≠ "" && tag = "-" then
        match marshalStructFields false rest with
        | (restOut, err) => (lead ++ restOut, err)
      else
        let outKey := if tag = "" then fname else tagKeySegment tag
        let head := lead ++ goStrconvQuote outKey ++ ":"
        match marshalValue v with
        | (out, some e) => (head ++ out, some e)
        | (out, none) =>
          match marshalStructFields false rest with
          | (restOut, err) => (head ++ out ++ restOut, err)

end

/-- `MarshalToBuffer` (coder.go): the reflective entry point. -/
def MarshalToBuffer (v : RValue) : String × Option String :=
  marshalValue v

/-! ### A JSON syntax checker (RFC 8259), used to judge emitted bytes -/

/-- JSON insignificant whitespace. -/
def isJsonWs (c : Char) : Bool :=
  c = ' ' || c = '\t' || c = '\n' || c = '\r'

/-- Skip insignificant whitespace. -/
def skipJsonWs (cs : List Char) : List Char :=
  cs.dropWhile isJsonWs

/-- Hex digit as allowed in a `\uXXXX` escape. -/
def isHexChar (c : Char) : Bool :=
  c.isDigit || ('a' ≤ c && c ≤ 'f') || ('A' ≤ c && c ≤ 'F')

/-- Consume the remainder of a JSON string literal (after the opening
quote); unescaped control characters are rejected. -/
def parseStringBody : List Char → Option (List Char)
  | [] => none
  | '\x22' :: rest => some rest
  | '\\' :: e :: rest =>
    if e = '\x22' || e = '\\' || e = '/' || e = 'b' || e = 'f' || e = 'n' || e = 'r' || e = 't' then
      parseStringBody rest
    else if e = 'u' then
      match rest with
      | a :: b :: c :: d :: rest2 =>
        if isHexChar a && isHexChar b && isHexChar c && isHexChar d then parseStringBody rest2
        else none
      | _ => none
    else none
  | c :: rest => if 0x20 ≤ c.toNat then parseStringBody rest else none

/-- Consume the fraction and exponent parts of a JSON number. -/
def parseFracExp (cs : List Char) : Option (List Char) :=
  let afterFrac : Option (List Char) :=
    match cs with
    | '.' :: r =>
      (match r with
       | d :: _ => if d.isDigit then some (r.dropWhile Char.isDigit) else none
       | [] => none)
    | _ => some cs
  match afterFrac with
  | none => none
  | some cs2 =>
    match cs2 with
    | e :: r =>
      if e = 'e' || e = 'E' then
        let r2 := match r with
          | sg :: rr => if sg = '+' || sg = '-' then rr else sg :: rr
          | [] => []
        match r2 with
        | d :: _ => if d.isDigit then some (r2.dropWhile Char.isDigit) else none
        | [] => none
      else some cs2
    | [] => some cs2

/-- Consume a JSON number. -/
def parseNumber (cs : List Char) : Option (List Char) :=
  let cs1 := match cs with | '-' :: r => r | _ => cs
  match cs1 with
  | [] => none
  | c :: r =>
    if c = '0' then parseFracExp r
    else if c.isDigit then parseFracExp (r.dropWhile Char.isDigit)
    else none

mutual

/-- Consume one JSON value (fuel-driven recursive descent). -/
def parseJsonValue : Nat → List Char → Option (List Char)
  | 0, _ => none
  | fuel + 1, cs =>
    match skipJsonWs cs with
    | '\x7b' :: rest => parseJsonMembers fuel (skipJsonWs rest) true
    | '[' :: rest => parseJsonElems fuel (skipJsonWs rest) true
    | '\x22' :: rest => parseStringBody rest
    | 't' :: 'r' :: 'u' :: 'e' :: rest => some rest
    | 'f' :: 'a' :: 'l' :: 's' :: 'e' :: rest => some rest
    | 'n' :: 'u' :: 'l' :: 'l' :: rest => some rest
    | other => parseNumber other

/-- Consume object members up to the closing brace (`atStart` allows the
empty object; a trailing comma is rejected). -/
def parseJsonMembers : Nat → List Char → Bool → Option (List Char)
  | 0, _, _ => none
  | fuel + 1, cs, atStart =>
    match cs with
    | '\x7d' :: rest => if atStart then some rest else none
    | '\x22' :: rest =>
      (match parseStringBody rest with
       | none => none
       | some afterKey =>
         match skipJsonWs afterKey with
         | ':' :: afterColon =>
           (match parseJsonValue fuel afterColon with
            | none => none
            | some afterVal =>
              match skipJsonWs afterVal with
              | ',' :: afterComma => parseJsonMembers fuel (skipJsonWs afterComma) false
              | '\x7d' :: rest2 => some rest2
              | _ => none)
         | _ => none)
    | _ => none

/-- Consume array elements up to the closing bracket. -/
def parseJsonElems : Nat → List Char → Bool → Option (List Char)
  | 0, _, _ => none
  | fuel + 1, cs, atStart =>
    match cs with
    | ']' :: rest => if atStart then some rest else none
    | _ =>
      match parseJsonValue fuel cs with
      | none => none
      | some after =>
        match skipJsonWs after with
        | ',' :: r => parseJsonElems fuel (skipJsonWs r) false
        | ']' :: r => some r
        | _ => none

end

/-- Whether a byte chunk is exactly one JSON value (surrounding
whitespace, including a terminating newline, allowed). -/
def jsonValueValid (s : String) : Bool :=
  match parseJsonValue (s.data.length + 2) s.data with
  | some rest => (skipJsonWs rest).isEmpty
  | none => false

/-! ### Helpers for stating and proving the claims -/

/-- Whether `pat` starts the list (substring test helper). -/
def listStartsWith : List Char → List Char → Bool
  | [], _ => true
  | _ :: _, [] => false
  | p :: ps, c :: cs => p = c && listStartsWith ps cs

/-- Whether `pat` occurs contiguously in the list. -/
def listHasSub (pat : List Char) : List Char → Bool
  | [] => listStartsWith pat []
  | c :: cs => listStartsWith pat (c :: cs) || listHasSub pat cs

/-- Whether `pat` occurs contiguously in `s`. -/
def strHasSub (pat s : String) : Bool :=
  listHasSub pat.data s.data

/-- A key character no normalization step can touch: not Go whitespace,
not a colon, not a quote. -/
def cleanKeyChar (c : Char) : Bool :=
  !isGoSpace c && !(c = ':') && !isQuoteChar c

/-- The value of the last entry of `l` that `mergeMaps` stores under the
output key `t` (proof-side description of `mergeOne`). -/
def lastVal (l : GoMap) (t : String) : Option Value :=
  match l with
  | [] => none
  | (k, v) :: rest =>
    match lastVal rest t with
    | some w => some w
    | none => if mergeEffKey k = t then some v else none

/-! ### Library-style helper lemmas -/

theorem dropWhile_eq_self_of_all_false {p : Char → Bool} :
    ∀ {l : List Char}, (∀ c ∈ l, p c = false) → l.dropWhile p = l
  | [], _ => rfl
  | c :: cs, h => by
    have hc := h c (List.mem_cons_self c cs)
    simp [List.dropWhile_cons, hc]

theorem dropTrailing_eq_self_of_all_false {p : Char → Bool} {l : List Char}
    (h : ∀ c ∈ l, p c = false) : dropTrailing p l = l := by
  unfold dropTrailing
  rw [dropWhile_eq_self_of_all_false (fun c hc => h c (List.mem_reverse.mp hc)),
    List.reverse_reverse]

theorem mem_of_getLast?_eq_some :
    ∀ {l : List Char} {c : Char}, l.getLast? = some c → c ∈ l
  | [], _, h => by simp at h
  | [a], c, h => by
    simp [List.getLast?] at h
    simp [h]
  | a :: b :: rest, c, h => by
    rw [List.getLast?_cons_cons] at h
    exact List.mem_cons_of_mem a (mem_of_getLast?_eq_some h)

theorem string_mk_data (s : String) : String.mk s.data = s := rfl

theorem normalizeKey_eq_self {k : String}
    (h : ∀ c ∈ k.data, cleanKeyChar c = true) : normalizeKey k = k := by
  have hsp : ∀ c ∈ k.data, isGoSpace c = false := by
    intro c hc
    have := h c hc
    simp [cleanKeyChar] at this
    exact this.1.1
  have hq : ∀ c ∈ k.data, isQuoteChar c = false := by
    intro c hc
    have := h c hc
    simp [cleanKeyChar] at this
    exact this.2
  have hcol : ∀ c ∈ k.data, c ≠ ':' := by
    intro c hc
    have := h c hc
    simp [cleanKeyChar] at this
    exact this.1.2
  have h0 : goTrimSpaceL k.data = k.data := by
    unfold goTrimSpaceL
    rw [dropWhile_eq_self_of_all_false hsp, dropTrailing_eq_self_of_all_false hsp]
  have hsuf : goTrimSuffixColonL k.data = k.data := by
    unfold goTrimSuffixColonL
    cases hl : k.data.getLast? with
    | none => simp
    | some c =>
      have := hcol c (mem_of_getLast?_eq_some hl)
      simp [this]
  have h2 : goTrimQuotesL k.data = k.data := by
    unfold goTrimQuotesL
    rw [dropWhile_eq_self_of_all_false hq, dropTrailing_eq_self_of_all_false hq]
  unfold normalizeKey
  rw [h0, hsuf, h2, h0]

/-! ### C3: fastFormatInt / fastFormatUint -/

/-- C3: refuted on the code as written — `fastFormatInt` negates the
minimum int64 naively, the negation wraps back to the minimum (still
negative), the digit loop never runs, and the function emits just "-"
instead of "-9223372036854775808".  `fastFormatUint` is fine even at the
maximum uint64.  The spec explicitly demands a non-overflowing path for
the minimum signed value, so this is a bug in the code. -/
theorem fastFormatInt_minInt64_collapses :
    fastFormatInt (-(2 ^ 63)) = "-" ∧
    fastFormatInt (-(2 ^ 63)) ≠ "-9223372036854775808" ∧
    fastFormatUint (2 ^ 64 - 1) = "18446744073709551615" := by
  refine ⟨?_, ?_, ?_⟩ <;> decide

/-! ### C9: package-level helpers with a nil global slot -/

/-- C9: with the package-level logger slot holding nil, each of the four
package helpers returns at once and forwards no call to any logger
implementation `L`, for every message and field list. -/
theorem packageHelpers_nil_slot_noop (L : Type) (msg : String)
    (fields : List (Option GoMap)) :
    packageInfo (none : Option L) msg fields = [] ∧
    packageWarn (none : Option L) msg fields = [] ∧
    packageError (none : Option L) msg fields = [] ∧
    packageDebug (none : Option L) msg fields = [] :=
  ⟨rfl, rfl, rfl, rfl⟩

/-! ### C10: WithCustomTimeFormat with the empty string -/

/-- C10: applying `WithCustomTimeFormat ""` to any logger is the
identity: the time format is retained and no other field changes. -/
theorem withCustomTimeFormat_empty_leaves_logger_unchanged (jl : JSONLogger) :
    WithCustomTimeFormat "" jl = jl := by
  simp [WithCustomTimeFormat]

/-! ### C4: normalizeKey idempotence -/

/-- C4 counterexample: `normalizeKey` on the noisy key `"  'key:'  "`
yields `"key:"` (the quotes shield the colon from the single
trailing-colon strip), not the claimed `"key"`, and a second application
changes the result again, refuting idempotence at this key. -/
theorem normalizeKey_not_idempotent :
    normalizeKey ("  \x27key:\x27  ") = "key:" ∧
    normalizeKey (normalizeKey ("  \x27key:\x27  ")) = "key" ∧
    normalizeKey ("  \x27key:\x27  ") ≠ "key" := by
  refine ⟨?_, ?_, ?_⟩ <;> decide

/-- C4 amended: `normalizeKey` fixes every key whose characters are all
untouchable (no whitespace, colon or quote anywhere), and on such keys it
is idempotent; it is not idempotent in general (see the counterexample:
normalizing `"  'key:'  "` gives `"key:"`, and normalizing again `"key"`). -/
theorem normalizeKey_id_on_clean_keys (k : String)
    (h : ∀ c ∈ k.data, cleanKeyChar c = true) :
    normalizeKey k = k ∧ normalizeKey (normalizeKey k) = normalizeKey k := by
  have h1 := normalizeKey_eq_self h
  exact ⟨h1, by simp only [h1]⟩

/-- C4 witness: the canonical key "key" is untouched and idempotent. -/
theorem normalizeKey_id_on_clean_keys_witness :
    normalizeKey ("key") = "key" ∧
    normalizeKey (normalizeKey ("key")) = normalizeKey ("key") :=
  normalizeKey_id_on_clean_keys ("key") (by decide)

/-! ### C5: the fast-path guards versus full normalization -/

/-- C5 counterexample: the writers' first/last-character guard lets the
key " a" through unnormalized although `normalizeKey` would trim it, and
`mergeMaps`' suspect-character test lets a vertical-tab key through
although `normalizeKey` (via Go's Unicode-aware TrimSpace) would trim
it; in both code paths the emitted key differs from `normalizeKey`. -/
theorem keyGuard_fast_path_differs :
    writerKeyOf (" a") = " a" ∧ normalizeKey (" a") = "a" ∧
    writerKeyOf (" a") ≠ normalizeKey (" a") ∧
    mergeEffKey ("\x0ba") = "\x0ba" ∧ normalizeKey ("\x0ba") = "a" ∧
    mergeEffKey ("\x0ba") ≠ normalizeKey ("\x0ba") := by
  refine ⟨?_, ?_, ?_, ?_, ?_, ?_⟩ <;> decide

/-- C5 amended: for keys all of whose characters are untouchable by
normalization (no Go whitespace anywhere — this excludes the suspect set
and also characters like vertical tab that the suspect test misses — and
no colon or quote), `mergeMaps`' fast path is sound: the guard fires,
the key is stored raw, and that equals its full normalization. -/
theorem mergeFastPath_matches_normalizeKey (k : String)
    (h : ∀ c ∈ k.data, cleanKeyChar c = true) :
    containsAnySuspect k = false ∧ mergeEffKey k = k ∧
    mergeEffKey k = normalizeKey k := by
  have hsusp : containsAnySuspect k = false := by
    unfold containsAnySuspect
    rw [List.any_eq_false]
    intro c hc
    have hcl := h c hc
    simp [cleanKeyChar, isQuoteChar] at hcl
    obtain ⟨⟨hsp, hcol⟩, hdq, hsq⟩ := hcl
    have hspace : c ≠ ' ' := by intro e; rw [e] at hsp; simp [isGoSpace] at hsp
    have htab : c ≠ '\t' := by intro e; rw [e] at hsp; simp [isGoSpace] at hsp
    have hnl : c ≠ '\n' := by intro e; rw [e] at hsp; simp [isGoSpace] at hsp
    have hcr : c ≠ '\r' := by intro e; rw [e] at hsp; simp [isGoSpace] at hsp
    simp [hspace, htab, hnl, hcr, hcol, hdq, hsq]
  have heff : mergeEffKey k = k := by
    unfold mergeEffKey
    simp [hsusp]
  exact ⟨hsusp, heff, by rw [heff, normalizeKey_eq_self h]⟩

/-- C5 witness: the clean key "key" takes the fast path and agrees with
full normalization. -/
theorem mergeFastPath_matches_normalizeKey_witness :
    containsAnySuspect ("key") = false ∧ mergeEffKey ("key") = "key" ∧
    mergeEffKey ("key") = normalizeKey ("key") :=
  mergeFastPath_matches_normalizeKey ("key") (by decide)

/-! ### C7: merge override law.  Helper lemmas about insert/lookup and the
last stored value of one source map. -/

theorem mergeStep_eq_insert (d : GoMap) (k : String) (v : Value) :
    mergeStep d k v = insertKV d (mergeEffKey k) v := by
  unfold mergeStep mergeEffKey
  cases h : containsAnySuspect k <;> simp [h]

theorem lookup_insertKV_self : ∀ (d : GoMap) (k : String) (v : Value),
    lookupKV (insertKV d k v) k = some v
  | [], k, v => by simp [insertKV, lookupKV]
  | (k0, v0) :: rest, k, v => by
    by_cases h : k0 = k
    · simp [insertKV, h, lookupKV]
    · simp [insertKV, h, lookupKV, lookup_insertKV_self rest k v]

theorem lookup_insertKV_other : ∀ (d : GoMap) (k t : String) (v : Value), t ≠ k →
    lookupKV (insertKV d k v) t = lookupKV d t
  | [], k, t, v, h => by simp [insertKV, lookupKV, Ne.symm h]
  | (k0, v0) :: rest, k, t, v, h => by
    by_cases h0 : k0 = k
    · subst h0
      simp [insertKV, lookupKV, Ne.symm h]
    · simp [insertKV, h0, lookupKV, lookup_insertKV_other rest k t v h]

theorem mergeOne_lookup : ∀ (l : GoMap) (d : GoMap) (t : String),
    lookupKV (mergeOne d l) t =
      (match lastVal l t with
       | some w => some w
       | none => lookupKV d t)
  | [], d, t => by simp [mergeOne, lastVal]
  | (k, v) :: rest, d, t => by
    have hstep : mergeOne d ((k, v) :: rest) = mergeOne (mergeStep d k v) rest := by
      simp [mergeOne]
    rw [hstep, mergeOne_lookup rest]
    cases hl : lastVal rest t with
    | some w => simp [lastVal, hl]
    | none =>
      simp only [lastVal, hl]
      rw [mergeStep_eq_insert]
      by_cases he : mergeEffKey k = t
      · rw [he, lookup_insertKV_self]
        simp [he]
      · rw [lookup_insertKV_other _ _ _ _ (fun e => he e.symm)]
        simp [he]

theorem lastVal_none_of_no_hit : ∀ {l : GoMap} {t : String},
    (∀ p ∈ l, mergeEffKey p.1 ≠ t) → lastVal l t = none
  | [], _, _ => rfl
  | (k, v) :: rest, t, h => by
    have hrest := lastVal_none_of_no_hit (fun p hp => h p (List.mem_cons_of_mem _ hp))
    have hk := h (k, v) (List.mem_cons_self _ _)
    simp [lastVal, hrest, hk]

theorem lastVal_unique_hit : ∀ {l : GoMap} {v : Value},
    lookupKV l "k" = some v →
    (∀ p ∈ l, p.1 ≠ "k" → mergeEffKey p.1 ≠ "k") →
    (l.map Prod.fst).Nodup →
    lastVal l "k" = some v
  | [], v, hB, _, _ => by simp [lookupKV] at hB
  | (k0, v0) :: rest, v, hB, hOnly, hNodup => by
    by_cases hk : k0 = "k"
    · subst hk
      have hv : v0 = v := by simpa [lookupKV] using hB
      have hcons : ("k" :: rest.map Prod.fst).Nodup := by simpa using hNodup
      have hnotmem : "k" ∉ rest.map Prod.fst := (List.nodup_cons.mp hcons).1
      have hnotin : ∀ p ∈ rest, p.1 ≠ "k" := fun p hp e =>
        hnotmem (e ▸ List.mem_map_of_mem Prod.fst hp)
      have hnone : lastVal rest "k" = none :=
        lastVal_none_of_no_hit (fun p hp =>
          hOnly p (List.mem_cons_of_mem _ hp) (hnotin p hp))
      have heff : mergeEffKey "k" = "k" := by decide
      simp [lastVal, hnone, heff, hv]
    · have hrest : lookupKV rest "k" = some v := by simpa [lookupKV, hk] using hB
      have hcons : (k0 :: rest.map Prod.fst).Nodup := by simpa using hNodup
      have ih := lastVal_unique_hit hrest
        (fun p hp => hOnly p (List.mem_cons_of_mem _ hp))
        ((List.nodup_cons.mp hcons).2)
      simp [lastVal, ih]

/-- C7 counterexample: two distinct keys of the same later source map can
collide after normalization ("k" and "k:" both store under "k"), and the
value surviving at dst["k"] then depends on Go's unspecified map
iteration order; under the iteration order modelled here the final value
is B["k:"] = 9, not B["k"] = 2, refuting the claim as universally
stated. -/
theorem mergeMaps_override_fails_on_normalized_collision :
    lookupKV (mergeMaps [("k", .vNum .i 0)]
        [some [("k", .vNum .i 1)], some [("k", .vNum .i 2), ("k:", .vNum .i 9)]]) "k"
      = some (.vNum .i 9) ∧
    lookupKV [("k", .vNum .i 2), ("k:", .vNum .i 9)] "k" = some (.vNum .i 2) ∧
    Value.vNum .i 9 ≠ Value.vNum .i 2 := by
  refine ⟨rfl, rfl, ?_⟩
  intro h
  injection h with h1 h2
  exact absurd h2 (by decide)

/-- C7 amended: merge(dst, A, B) leaves dst["k"] = B["k"] whenever no
other key of B also stores under "k" after normalization (B's keys being
unique, as Go map keys are); later sources overwrite earlier sources and
the pre-existing destination entry, and nil sources are skipped without
changing the result. -/
theorem mergeMaps_override_law (dst A B : GoMap) (v : Value)
    (hdst : (lookupKV dst "k").isSome = true)
    (hA : (lookupKV A "k").isSome = true)
    (hB : lookupKV B "k" = some v)
    (hOnly : ∀ p ∈ B, p.1 ≠ "k" → mergeEffKey p.1 ≠ "k")
    (hNodup : (B.map Prod.fst).Nodup) :
    lookupKV (mergeMaps dst [some A, some B]) "k" = some v ∧
    mergeMaps dst [some A, none, some B] = mergeMaps dst [some A, some B] := by
  constructor
  · have h1 : mergeMaps dst [some A, some B] = mergeOne (mergeOne dst A) B := by
      simp [mergeMaps]
    rw [h1, mergeOne_lookup, lastVal_unique_hit hB hOnly hNodup]
  · simp [mergeMaps]

/-- C7 witness: the law at concrete one-entry maps. -/
theorem mergeMaps_override_law_witness :
    lookupKV (mergeMaps [("k", .vNum .i 0)]
        [some [("k", .vNum .i 1)], some [("k", .vNum .i 2)]]) "k" = some (.vNum .i 2) ∧
    mergeMaps [("k", .vNum .i 0)] [some [("k", .vNum .i 1)], none, some [("k", .vNum .i 2)]] =
      mergeMaps [("k", .vNum .i 0)] [some [("k", .vNum .i 1)], some [("k", .vNum .i 2)]] :=
  mergeMaps_override_law [("k", .vNum .i 0)] [("k", .vNum .i 1)] [("k", .vNum .i 2)]
    (.vNum .i 2) rfl rfl rfl (by decide) (by decide)

/-! ### C2: the writer's per-field fallback and error reporting -/

theorem writeFieldsList_err_iff : ∀ (l : GoMap),
    ((writeFieldsList l).2 ≠ none ↔ ∃ p ∈ l, (encodeValue p.2).2 = false)
  | [] => by simp [writeFieldsList]
  | (k, v) :: rest => by
    cases henc : encodeValue v with
    | mk out ok =>
      cases ok with
      | true =>
        have ih := writeFieldsList_err_iff rest
        cases hrec : writeFieldsList rest with
        | mk ro re =>
          rw [hrec] at ih
          simp only [writeFieldsList, henc, hrec]
          constructor
          · intro h
            obtain ⟨p, hp, hfail⟩ := ih.mp h
            exact ⟨p, List.mem_cons_of_mem _ hp, hfail⟩
          · rintro ⟨p, hp, hfail⟩
            rcases List.mem_cons.mp hp with he | hm
            · subst he
              rw [henc] at hfail
              simp at hfail
            · exact ih.mpr ⟨p, hm, hfail⟩
      | false =>
        simp only [writeFieldsList, henc]
        constructor
        · intro _
          exact ⟨(k, v), List.mem_cons_self _ _, by rw [henc]⟩
        · intro _
          simp [errMarshalTypeUnsupported]

theorem writeFields_err_iff (m : Option GoMap) :
    ((writeFields m).2 ≠ none ↔ ∃ om : GoMap, m = some om ∧ ∃ p ∈ om, (encodeValue p.2).2 = false) := by
  cases m with
  | none => simp [writeFields]
  | some om => simp [writeFields, writeFieldsList_err_iff om]

theorem foldl_writeFieldsFold_err : ∀ (adds : List (Option GoMap)) (acc : String × Option String),
    ((adds.foldl writeFieldsFold acc).2 ≠ none ↔
      (acc.2 ≠ none ∨ ∃ om : GoMap, some om ∈ adds ∧ ∃ p ∈ om, (encodeValue p.2).2 = false))
  | [], acc => by simp
  | m? :: rest, acc => by
    rw [List.foldl_cons, foldl_writeFieldsFold_err rest]
    have hstep : (writeFieldsFold acc m?).2 ≠ none ↔
        (acc.2 ≠ none ∨ ∃ om : GoMap, m? = some om ∧ ∃ p ∈ om, (encodeValue p.2).2 = false) := by
      unfold writeFieldsFold
      cases hw : writeFields m? with
      | mk out err =>
        cases err with
        | none =>
          constructor
          · intro h
            exact Or.inl h
          · rintro (h | ⟨om, hom, p, hp, hfail⟩)
            · exact h
            · exfalso
              have hne : (writeFields m?).2 ≠ none :=
                (writeFields_err_iff m?).mpr ⟨om, hom, p, hp, hfail⟩
              rw [hw] at hne
              exact hne rfl
        | some e =>
          constructor
          · intro _
            have hne : (writeFields m?).2 ≠ none := by
              rw [hw]
              simp
            exact Or.inr ((writeFields_err_iff m?).mp hne)
          · intro _
            simp
    rw [hstep]
    constructor
    · rintro ((h | ⟨om, hom, hfail⟩) | ⟨om, hom, hfail⟩)
      · exact Or.inl h
      · exact Or.inr ⟨om, by simp [hom], hfail⟩
      · exact Or.inr ⟨om, List.mem_cons_of_mem _ hom, hfail⟩
    · rintro (h | ⟨om, hom, hfail⟩)
      · exact Or.inl (Or.inl h)
      · rcases List.mem_cons.mp hom with he | hm
        · exact Or.inl (Or.inr ⟨om, he.symm, hfail⟩)
        · exact Or.inr ⟨om, hm, hfail⟩

/-- C2 counterexample: with a source map whose iteration order visits the
rejected field first, the following supported field ("good") of the same
map is never written — the loop returns at the first fallback — so "every
other field of every supplied map is still written" fails.  (The entry is
still emitted, with the fallback for "bad" and one error field.) -/
theorem writeLogEntry_skips_fields_after_failure :
    (WriteLogEntry ("T") ("info") ("m") none
        [some [("bad", .vOther "0xc0"), ("good", .vNum .i 1)]]).1
      = "\x7b\x22timestamp\x22:\x22T\x22,\x22level\x22:\x22info\x22,\x22message\x22:\x22m\x22,\x22bad\x22:\x220xc0\x22,\x22error\x22:\x22unsupported type for marshal\x22\x7d\n" ∧
    strHasSub ("\x22good\x22")
      (WriteLogEntry ("T") ("info") ("m") none
        [some [("bad", .vOther "0xc0"), ("good", .vNum .i 1)]]).1 = false ∧
    encodeValue (.vNum .i 1) = ("1", true) := by
  refine ⟨?_, ?_, ?_⟩ <;> decide

/-- C2 amended: the writer never refuses to emit the entry (the output
always closes the object and ends with a newline), and the returned
error is non-nil exactly when some supplied field value is rejected by
the fast encoder; but fields of the failing map that iteration visits
after the first rejected field are skipped, not written (fields of other
supplied maps are still processed). -/
theorem writeLogEntry_total_and_error_iff (ts level msg : String)
    (base : Option GoMap) (adds : List (Option GoMap)) :
    (∃ core, (WriteLogEntry ts level msg base adds).1 = core ++ "\x7d\n") ∧
    ((WriteLogEntry ts level msg base adds).2 ≠ none ↔
      ∃ om : GoMap, some om ∈ base :: adds ∧ ∃ p ∈ om, (encodeValue p.2).2 = false) := by
  unfold WriteLogEntry
  cases hfold : adds.foldl writeFieldsFold (writeFields base) with
  | mk fieldsOut err =>
    constructor
    · cases err with
      | none => exact ⟨writeEntryHead ts level msg ++ fieldsOut ++ "", rfl⟩
      | some e =>
        exact ⟨writeEntryHead ts level msg ++ fieldsOut ++
          (",\x22error\x22:" ++ fastQuote e), rfl⟩
    · have h := foldl_writeFieldsFold_err adds (writeFields base)
      rw [hfold] at h
      simp only at h
      rw [show ((writeEntryHead ts level msg ++ fieldsOut ++
          (match err with
           | some e => ",\x22error\x22:" ++ fastQuote e
           | none => "") ++ "\x7d\n", err) : String × Option String).2 = err from rfl]
      rw [h, writeFields_err_iff base]
      constructor
      · rintro (⟨om, hbase, hfail⟩ | ⟨om, hmem, hfail⟩)
        · exact ⟨om, by simp [hbase], hfail⟩
        · exact ⟨om, List.mem_cons_of_mem _ hmem, hfail⟩
      · rintro ⟨om, hmem, hfail⟩
        rcases List.mem_cons.mp hmem with he | hm
        · exact Or.inl ⟨om, he.symm, hfail⟩
        · exact Or.inr ⟨om, hm, hfail⟩

/-! ### C1: partial fast-encoder bytes reach the output -/

/-- C1: refuted on the code as written — when a field value is a slice
with a nested unsupported element, `encodeSliceAny` leaves the opening
bracket in the buffer before failing, and `writeFields` appends the
quoted string fallback right after those partial bytes instead of
discarding them: the emitted entry contains the half-written fragment
`"bad":["..."` with no closing bracket and is not valid JSON.  The spec
requires the partial bytes to be discarded or overwritten. -/
theorem writeLogEntry_keeps_partial_fragment :
    encodeValue (.vArr [.vOther "0xc000010000"]) = ("[", false) ∧
    (WriteLogEntry ("T") ("info") ("m") none
        [some [("bad", .vArr [.vOther "0xc000010000"])]]).1
      = "\x7b\x22timestamp\x22:\x22T\x22,\x22level\x22:\x22info\x22,\x22message\x22:\x22m\x22,\x22bad\x22:[\x22[0xc000010000]\x22,\x22error\x22:\x22unsupported type for marshal\x22\x7d\n" ∧
    jsonValueValid
      ("\x7b\x22timestamp\x22:\x22T\x22,\x22level\x22:\x22info\x22,\x22message\x22:\x22m\x22,\x22bad\x22:[\x22[0xc000010000]\x22,\x22error\x22:\x22unsupported type for marshal\x22\x7d\n")
      = false := by
  refine ⟨?_, ?_, ?_⟩ <;> decide

/-! ### C8: the reflective struct marshaller and json tags -/

/-- C8: refuted on the code as written — the struct loop writes the
separating comma (and clears its first-field flag) before looking at the
`json` tag, so a field tagged `json:"-"` is skipped only after its comma
slot is emitted: a trailing skipped field yields `{"a":1,}` and a
leading one yields `{,"A":1}`, both invalid JSON, though the renamed key
of a `json:"a"` tag is honored.  The claim (and spec) require the skip
to leave a well-formed object. -/
theorem marshalValue_skip_tag_leaves_stray_comma :
    marshalValue (.rStruct [("A", true, "a", .rInt 1), ("B", true, "-", .rInt 2)])
      = ("\x7b\x22a\x22:1,\x7d", none) ∧
    jsonValueValid ("\x7b\x22a\x22:1,\x7d") = false ∧
    marshalValue (.rStruct [("B", true, "-", .rInt 2), ("A", true, "", .rInt 1)])
      = ("\x7b,\x22A\x22:1\x7d", none) ∧
    jsonValueValid ("\x7b,\x22A\x22:1\x7d") = false := by
  refine ⟨?_, ?_, ?_, ?_⟩ <;> decide

/-! ### C6: severity filtering in the logger pipeline -/

/-- C6 counterexample: a warn-level logger whose base fields hold a slice
with a nested unsupported element still writes exactly one
newline-terminated chunk, but that chunk is not a well-formed JSON
object (the array fragment is never closed), so "exactly one
newline-terminated JSON object" fails as universally stated. -/
theorem log_warn_chunk_not_always_json :
    ((JSONLogger.mk [("k", .vArr [.vOther "0xabc"])] WarnLevel ("F")).warn ("T") ("m") []).writes
      = ["\x7b\x22timestamp\x22:\x22T\x22,\x22level\x22:\x22warn\x22,\x22message\x22:\x22m\x22,\x22k\x22:[\x22<unsupported>\x22\x7d\n"] ∧
    jsonValueValid
      ("\x7b\x22timestamp\x22:\x22T\x22,\x22level\x22:\x22warn\x22,\x22message\x22:\x22m\x22,\x22k\x22:[\x22<unsupported>\x22\x7d\n")
      = false := by
  refine ⟨?_, ?_⟩ <;> decide

/-- C6 amended: for every logger at minimum level warn, debug and info
calls write nothing to the sink and acquire no pooled buffer (the level
comparison returns before any buffer or formatting work), while warn and
error calls acquire one buffer and write exactly one chunk, terminated
by the final newline; the chunk is a well-formed JSON object for
fast-encodable fields but not in general (see the counterexample). -/
theorem log_level_warn_filters_and_emits (jl : JSONLogger) (h : jl.level = WarnLevel)
    (now msg : String) (kvs : List (Option GoMap)) :
    (jl.debug now msg kvs).writes = [] ∧ (jl.debug now msg kvs).buffersAcquired = 0 ∧
    (jl.info now msg kvs).writes = [] ∧ (jl.info now msg kvs).buffersAcquired = 0 ∧
    (∃ c, (jl.warn now msg kvs).writes = [c ++ "\n"]) ∧
    (jl.warn now msg kvs).buffersAcquired = 1 ∧
    (∃ c, (jl.error now msg kvs).writes = [c ++ "\n"]) ∧
    (jl.error now msg kvs).buffersAcquired = 1 := by
  unfold JSONLogger.debug JSONLogger.info JSONLogger.warn JSONLogger.error JSONLogger.log
  rw [h]
  have hd : DebugLevel < WarnLevel := by decide
  have hi : InfoLevel < WarnLevel := by decide
  have hw : ¬(WarnLevel < WarnLevel) := by decide
  have he : ¬(ErrorLevel < WarnLevel) := by decide
  refine ⟨?_, ?_, ?_, ?_, ?_, ?_, ?_, ?_⟩
  · simp [hd]
  · simp [hd]
  · simp [hi]
  · simp [hi]
  · refine ⟨?_, ?_⟩
    · exact "\x7b\x22timestamp\x22:\x22" ++ now ++ "\x22,\x22level\x22:\x22" ++ "warn"
        ++ "\x22,\x22message\x22:" ++ fastQuote msg
        ++ logBaseFieldsBytes jl.baseFields ++ logAddFieldsBytes kvs ++ "\x7d"
    · simp [hw]
  · simp [hw]
  · refine ⟨?_, ?_⟩
    · exact "\x7b\x22timestamp\x22:\x22" ++ now ++ "\x22,\x22level\x22:\x22" ++ "error"
        ++ "\x22,\x22message\x22:" ++ fastQuote msg
        ++ logBaseFieldsBytes jl.baseFields ++ logAddFieldsBytes kvs ++ "\x7d"
    · simp [he]
  · simp [he]

/-- C6 witness: the filtering behavior at a concrete warn-level logger. -/
theorem log_level_warn_filters_and_emits_witness :
    ((JSONLogger.mk [] WarnLevel ("F")).debug ("T") ("m") []).writes = [] ∧
    ((JSONLogger.mk [] WarnLevel ("F")).debug ("T") ("m") []).buffersAcquired = 0 ∧
    ((JSONLogger.mk [] WarnLevel ("F")).info ("T") ("m") []).writes = [] ∧
    ((JSONLogger.mk [] WarnLevel ("F")).info ("T") ("m") []).buffersAcquired = 0 ∧
    (∃ c, ((JSONLogger.mk [] WarnLevel ("F")).warn ("T") ("m") []).writes = [c ++ "\n"]) ∧
    ((JSONLogger.mk [] WarnLevel ("F")).warn ("T") ("m") []).buffersAcquired = 1 ∧
    (∃ c, ((JSONLogger.mk [] WarnLevel ("F")).error ("T") ("m") []).writes = [c ++ "\n"]) ∧
    ((JSONLogger.mk [] WarnLevel ("F")).error ("T") ("m") []).buffersAcquired = 1 :=
  log_level_warn_filters_and_emits (JSONLogger.mk [] WarnLevel ("F")) rfl ("T") ("m") []

end Golog
